import Mathlib

/-!
# sdlookup: a verification development of `main.go`

The program queries `internetdb.shodan.io` for every address of its targets and
prints the answers. The functions of `main.go` (`sendGET`, `GetIPInfo`, `StartJob`,
the producer goroutine, the worker pool and the single-shot branch of `main`) are
embedded as Lean functions. What they write and request is returned as a list of
events, in the order the code performs them. The library routines the code calls
(`flag`, `net/http`, `jsoniter`, `net.ParseCIDR`, `mapcidr.IPAddresses`,
`strings.TrimSpace`) are parameters of the embedding, gathered in `Lib`; the scanner of
the standard input is embedded with its limit on the length of a line. The goroutines of the streaming
mode are a transition system, one step of one goroutine at a time. The expansion of a
CIDR block, which is library code, is modelled from the specification.
-/

namespace Sdlookup

/-- The record `ShodanIPInfo` of `main.go`, one field per JSON key. -/
structure ShodanIPInfo where
  Cpes : List String
  Hostnames : List String
  IP : String
  Ports : List Int
  Tags : List String
  Vulns : List String
deriving DecidableEq, Repr

/-- The package-level flag variables of `main.go`. -/
structure Flags where
  csvOutput : Bool
  jsonOutput : Bool
  onlyHost : Bool
  concurrency : Int
deriving DecidableEq, Repr

/-- The defaults the four `flag.*Var` calls of `main` register. -/
def defaultFlags : Flags :=
  { csvOutput := true, jsonOutput := false, onlyHost := false, concurrency := 20 }

/-- What `client.Get` hands back when it returns no error: the status code of the
response and what `ioutil.ReadAll(resp.Body)` yields (the bytes, or a read error). -/
structure Response where
  StatusCode : Nat
  Body : Except String String

/-- The library routines and the network that `main.go` calls.
`Get` is `(*http.Client).Get`: an error, or a response (of any status code).
`Unmarshal` is `jsoniter.Unmarshal` into a fresh `ShodanIPInfo`: `none` is a non-nil error.
`ParseCIDR` is `net.ParseCIDR` with its results dropped: `true` is a nil error.
`IPAddresses` is `mapcidr.IPAddresses`. `TrimSpace` is `strings.TrimSpace`.
`FlagParse` is `flag.Parse()` on `os.Args[1:]` with the four flags of lines 39 to 42
defined: the values of the flag variables when it returns, `none` when it ends the
process instead (the command line of `flag` exits on error). -/
structure Lib where
  FlagParse : List String → Option Flags
  Get : String → Except String Response
  Unmarshal : String → Option ShodanIPInfo
  ParseCIDR : String → Bool
  IPAddresses : String → Except String (List String)
  TrimSpace : String → String

/-- What the program does that can be observed: a request sent, a line printed with
`fmt.Println` on standard output, a text written with `fmt.Fprintf` on standard error. -/
inductive Event where
  | get (url : String)
  | stdout (line : String)
  | stderr (text : String)
deriving DecidableEq, Repr

/-- The lines printed on standard output, in order. -/
def stdoutLines (es : List Event) : List String :=
  es.filterMap fun e => match e with
    | Event.stdout l => some l
    | _ => none

/-- The URLs requested, in order. -/
def getURLs (es : List Event) : List String :=
  es.filterMap fun e => match e with
    | Event.get u => some u
    | _ => none

/-- The URL built by `fmt.Sprintf("https://internetdb.shodan.io/%s", IP)`. -/
def ipURL (IP : String) : String :=
  "https://internetdb.shodan.io/" ++ IP

/-- The function `sendGET` of `main.go`: the string it returns and the events it causes. -/
def sendGET (lib : Lib) (IP : String) : String × List Event :=
  let url := ipURL IP
  match lib.Get url with
  | Except.error err => ("", [Event.get url, Event.stderr err])
  | Except.ok resp =>
    match resp.Body with
    | Except.error err => ("", [Event.get url, Event.stderr err])
    | Except.ok body => (body, [Event.get url])

/-- The loop over `shodanIPInfo.Ports` in `GetIPInfo`, one `fmt.Println` per port. -/
def printPorts (fl : Flags) (IP : String) (info : ShodanIPInfo) : List Int → List Event
  | [] => []
  | port :: rest =>
    let line := IP ++ ":" ++ toString port
    if fl.onlyHost then
      Event.stdout line :: printPorts fl IP info rest
    else
      let line := line ++ "," ++ String.intercalate ";" info.Hostnames
        ++ "," ++ String.intercalate ";" info.Tags
        ++ "," ++ String.intercalate ";" info.Cpes
        ++ "," ++ String.intercalate ";" info.Vulns
      Event.stdout line :: printPorts fl IP info rest

/-- The function `GetIPInfo` of `main.go`: the events it causes. -/
def GetIPInfo (fl : Flags) (lib : Lib) (IP : String) : List Event :=
  let (data, evs) := sendGET lib IP
  if data = "" then evs
  else if fl.jsonOutput then evs ++ [Event.stdout data]
  else
    match lib.Unmarshal data with
    | none => evs
    | some shodanIPInfo =>
      if fl.csvOutput then evs ++ printPorts fl IP shodanIPInfo shodanIPInfo.Ports
      else evs

/-- The `for _, ip := range ips` loop of `StartJob`, the events so far carried along. -/
def rangeIPs (fl : Flags) (lib : Lib) : List String → List Event → List Event
  | [], acc => acc
  | ip :: rest, acc => rangeIPs fl lib rest (acc ++ GetIPInfo fl lib ip)

/-- The function `StartJob` of `main.go`: the events it causes. -/
def StartJob (fl : Flags) (lib : Lib) (raw : String) : List Event :=
  if lib.ParseCIDR raw = false then GetIPInfo fl lib raw
  else
    match lib.IPAddresses raw with
    | Except.ok ips => rangeIPs fl lib ips []
    | Except.error _ => []

/-! ## The single-shot branch of `main` -/

/-- The UTF-8 bytes of one character: a Go string is its bytes. -/
def utf8Bytes (c : Char) : List Nat :=
  let n := c.toNat
  if n < 0x80 then [n]
  else if n < 0x800 then [0xC0 + n / 64, 0x80 + n % 64]
  else if n < 0x10000 then [0xE0 + n / 4096, 0x80 + n / 64 % 64, 0x80 + n % 64]
  else [0xF0 + n / 262144, 0x80 + n / 4096 % 64, 0x80 + n / 64 % 64, 0x80 + n % 64]

/-- The bytes of a string, the sequence Go compares strings by. -/
def strBytes (s : String) : List Nat :=
  s.toList.flatMap utf8Bytes

/-- Go's `a <= b` on strings: lexicographic on the bytes. -/
def StrLE (a b : String) : Prop :=
  strBytes a ≤ strBytes b

instance : DecidableRel StrLE :=
  fun a b => inferInstanceAs (Decidable (strBytes a ≤ strBytes b))

instance : IsTotal String StrLE :=
  ⟨fun a b => le_total (strBytes a) (strBytes b)⟩

instance : IsTrans String StrLE :=
  ⟨fun _ _ _ h₁ h₂ => @le_trans (List Nat) _ _ _ _ h₁ h₂⟩

/-- The call `sort.Strings(args)`: the arguments in increasing order. -/
def sortStrings (args : List String) : List String :=
  List.insertionSort StrLE args

/-- Lines 47 to 49 of `main`: `args := os.Args[1:]`, `sort.Strings(args)`,
`ip := args[len(args)-1]`. The index is a Go `int`; `none` is the run-time panic
`index out of range`. -/
def sortedLast (osArgs : List String) : Option String :=
  let args := sortStrings osArgs
  let i : Int := (args.length : Int) - 1
  if 0 ≤ i ∧ i < (args.length : Int) then args[i.toNat]? else none

/-- The target of the single-shot branch of `main`, from the command line: `flag.Parse()`
at line 43, then lines 47 to 49. `none` when no target is selected: the process ends in
`flag.Parse()`, or the index of line 49 is out of range. -/
def selectTarget (lib : Lib) (osArgs : List String) : Option String :=
  match lib.FlagParse osArgs with
  | none => none
  | some _ => sortedLast osArgs

/-- The single-shot run of `main` (line 43 and lines 47 to 51): the events of
`StartJob(ip)` under the flags that `flag.Parse()` has set, or `none` when the program
ends before `StartJob` is reached. -/
def singleShot (lib : Lib) (osArgs : List String) : Option (List Event) :=
  match lib.FlagParse osArgs with
  | none => none
  | some fl =>
    match sortedLast osArgs with
    | none => none
    | some ip => some (StartJob fl lib ip)

/-! ## The producer goroutine of `main` -/

/-- One turn of `for sc.Scan()`: the text `sc.Text()` of the token and the value of
`sc.Err()` at that moment (`none` is `nil`). -/
structure Scan where
  text : String
  err : Option String

/-- What the producer does to the channel `jobs`. -/
inductive ChanOp where
  | send (job : String)
  | close
deriving DecidableEq, Repr

/-- The producer goroutine of `main` (lines 69 to 77), over the tokens the scanner
yields until `sc.Scan()` returns false. -/
def producer (lib : Lib) : List Scan → List ChanOp
  | [] => [ChanOp.close]
  | sc :: rest =>
    let url := lib.TrimSpace sc.text
    if sc.err = none ∧ url ≠ "" then ChanOp.send url :: producer lib rest
    else producer lib rest

/-- The targets sent on the channel, in order. -/
def sent (ops : List ChanOp) : List String :=
  ops.filterMap fun o => match o with
    | ChanOp.send j => some j
    | ChanOp.close => none

/-- The constant `bufio.MaxScanTokenSize`, the size the buffer of a scanner made by
`bufio.NewScanner` grows to; `main` never calls `sc.Buffer`. -/
def MaxScanTokenSize : Nat := 64 * 1024

/-- The routine `dropCR` of `bufio.ScanLines`: one carriage return at the end of the
line is not part of the token. -/
def dropCR (line : String) : String :=
  match line.toList.reverse with
  | [] => line
  | c :: rest => if c = '\r' then String.mk rest.reverse else line

/-- The scanner of line 68 (`bufio.NewScanner(os.Stdin)`, split by lines) on a standard
input read without error, given as its lines (the text between two newlines): the tokens
of the turns of `for sc.Scan()`. A line is held in the buffer with its newline, so it has
to be shorter than `MaxScanTokenSize` bytes; on a longer line `sc.Scan()` returns false
(the scanner's error is `bufio.ErrTooLong`) and the loop ends. -/
def scanLines : List String → List Scan
  | [] => []
  | line :: rest =>
    if (strBytes line).length < MaxScanTokenSize then
      { text := dropCR line, err := none } :: scanLines rest
    else []

/-! ## The Target Expander, modelled from the specification -/

/-- Modelled from the spec: the value of a decimal digit; the CIDR syntax is parsed by
`net.ParseCIDR`, library code that is not part of `main.go`. -/
def digitVal (c : Char) : Option Nat :=
  if 48 ≤ c.toNat ∧ c.toNat ≤ 57 then some (c.toNat - 48) else none

/-- Modelled from the spec: a non-empty run of decimal digits read as a number, the
digits read so far in `acc` (part of the CIDR syntax that `net.ParseCIDR` parses). -/
def parseDigits : List Char → Nat → Option Nat
  | [], acc => some acc
  | c :: cs, acc =>
    match digitVal c with
    | none => none
    | some d => parseDigits cs (10 * acc + d)

/-- Modelled from the spec: a decimal number, at least one digit (part of the CIDR
syntax that `net.ParseCIDR` parses). -/
def parseDec (cs : List Char) : Option Nat :=
  match cs with
  | [] => none
  | _ :: _ => parseDigits cs 0

/-- Modelled from the spec: the pieces of a text between the occurrences of `sep` (part
of the CIDR syntax that `net.ParseCIDR` parses). -/
def splitChar (sep : Char) : List Char → List (List Char)
  | [] => [[]]
  | c :: cs =>
    if c = sep then [] :: splitChar sep cs
    else
      match splitChar sep cs with
      | [] => [[c]]
      | piece :: pieces => (c :: piece) :: pieces

/-- Modelled from the spec: one field of a dotted IPv4 address, a decimal number up to
255 (part of the CIDR syntax that `net.ParseCIDR` parses). -/
def parseOctet (cs : List Char) : Option Nat :=
  match parseDec cs with
  | none => none
  | some n => if n ≤ 255 then some n else none

/-- Modelled from the spec: "valid CIDR notation (address + prefix length)" for IPv4, the
syntax `a.b.c.d/p` with four fields up to 255 and a prefix length up to 32; the result is
the value of the address and the prefix length. The parser itself, `net.ParseCIDR`, is
library code that is not part of `main.go`. -/
def parseCIDR (s : String) : Option (Nat × Nat) :=
  match splitChar '/' s.toList with
  | [addr, mask] =>
    match splitChar '.' addr with
    | [f₁, f₂, f₃, f₄] =>
      match parseOctet f₁, parseOctet f₂, parseOctet f₃, parseOctet f₄, parseDec mask with
      | some a, some b, some c, some d, some p =>
        if p ≤ 32 then some (a * 2 ^ 24 + b * 2 ^ 16 + c * 2 ^ 8 + d, p) else none
      | _, _, _, _, _ => none
    | _ => none
  | _ => none

/-- Modelled from the spec: an IPv4 address value written as a dotted quad, the way
`mapcidr.IPAddresses` (library code that is not part of `main.go`) hands out addresses. -/
def ipString (n : Nat) : String :=
  toString (n / 2 ^ 24 % 256) ++ "." ++ toString (n / 2 ^ 16 % 256) ++ "."
    ++ toString (n / 2 ^ 8 % 256) ++ "." ++ toString (n % 256)

/-- Modelled from the spec: "every address contained in that block, in ascending numeric
order of address value", for the block of address value `a` and prefix length `p`;
computed by `mapcidr.IPAddresses`, library code that is not part of `main.go`. -/
def cidrAddresses (a p : Nat) : List Nat :=
  (List.range (2 ^ (32 - p))).map fun i => a / 2 ^ (32 - p) * 2 ^ (32 - p) + i

/-- Modelled from the spec: `net.ParseCIDR(raw)` returns a nil error exactly on valid
CIDR notation (library code that is not part of `main.go`). -/
def specParseCIDR (raw : String) : Bool :=
  (parseCIDR raw).isSome

/-- Modelled from the spec: `mapcidr.IPAddresses(raw)`, the Target Expander of a CIDR
block (library code that is not part of `main.go`). -/
def specIPAddresses (raw : String) : Except String (List String) :=
  match parseCIDR raw with
  | none => Except.error ("invalid CIDR address: " ++ raw)
  | some (a, p) => Except.ok ((cidrAddresses a p).map ipString)

/-! ## A sample world -/

/-- The set `unicode.IsSpace` of the Go library. -/
def isSpace (c : Char) : Bool :=
  let n := c.toNat
  (9 ≤ n ∧ n ≤ 13) ∨ n = 0x20 ∨ n = 0x85 ∨ n = 0xA0 ∨ n = 0x1680
    ∨ (0x2000 ≤ n ∧ n ≤ 0x200A) ∨ n = 0x2028 ∨ n = 0x2029 ∨ n = 0x202F
    ∨ n = 0x205F ∨ n = 0x3000

/-- The routine `strings.TrimSpace` of the Go library. -/
def trimSpace (s : String) : String :=
  String.mk ((s.toList.reverse.dropWhile isSpace).reverse.dropWhile isSpace)

/-- A body the service answers with. -/
def sampleBody : String :=
  "\x7b\"cpes\":[\"cpe:/a\"],\"hostnames\":[\"a.com\"],\"ip\":\"10.0.0.1\",\"ports\":[22,80],\"tags\":[],\"vulns\":[]\x7d"

/-- The record `sampleBody` decodes to. -/
def sampleInfo : ShodanIPInfo :=
  { Cpes := ["cpe:/a"], Hostnames := ["a.com"], IP := "10.0.0.1", Ports := [22, 80],
    Tags := [], Vulns := [] }

/-- The body of the service's 404 answer. -/
def notFoundBody : String :=
  "\x7b\"detail\":\"No information available\"\x7d"

/-- The record `notFoundBody` decodes to: no known key, every field empty. -/
def emptyInfo : ShodanIPInfo :=
  { Cpes := [], Hostnames := [], IP := "", Ports := [], Tags := [], Vulns := [] }

/-- A sample network: `10.0.0.1` is known, `10.0.0.2` answers 200 with an empty body,
`10.0.0.3` answers with a body that is not JSON, the host `down` cannot be reached, the
host `reset` breaks off while the body is read, and every other address answers 404. -/
def sampleGet (url : String) : Except String Response :=
  if url = ipURL "10.0.0.1" then Except.ok { StatusCode := 200, Body := Except.ok sampleBody }
  else if url = ipURL "10.0.0.2" then Except.ok { StatusCode := 200, Body := Except.ok "" }
  else if url = ipURL "10.0.0.3" then Except.ok { StatusCode := 200, Body := Except.ok "<html>" }
  else if url = ipURL "down" then Except.error "dial tcp: no route to host"
  else if url = ipURL "reset" then
    Except.ok { StatusCode := 200, Body := Except.error "connection reset by peer" }
  else Except.ok { StatusCode := 404, Body := Except.ok notFoundBody }

/-- The decoder on the bodies of the sample network. -/
def sampleUnmarshal (data : String) : Option ShodanIPInfo :=
  if data = sampleBody then some sampleInfo
  else if data = notFoundBody then some emptyInfo
  else none

/-- The routine `strconv.ParseBool` of the Go library. -/
def parseBool (s : String) : Option Bool :=
  if s = "1" ∨ s = "t" ∨ s = "T" ∨ s = "TRUE" ∨ s = "true" ∨ s = "True" then some true
  else if s = "0" ∨ s = "f" ∨ s = "F" ∨ s = "FALSE" ∨ s = "false" ∨ s = "False" then some false
  else none

/-- The value of a character as a digit in `strconv.ParseUint`: a decimal digit, or a
letter of either case counted from ten. -/
def digitOf (c : Char) : Option Nat :=
  let n := c.toNat
  if 48 ≤ n ∧ n ≤ 57 then some (n - 48)
  else if 97 ≤ n ∧ n ≤ 122 then some (n - 97 + 10)
  else if 65 ≤ n ∧ n ≤ 90 then some (n - 65 + 10)
  else none

/-- The digit loop of `strconv.ParseUint` for base 0: underscores are skipped, every
other character has to be a digit of the base. -/
def parseUintDigits (base : Nat) : List Char → Nat → Option Nat
  | [], n => some n
  | c :: cs, n =>
    if c = '_' then parseUintDigits base cs n
    else
      match digitOf c with
      | none => none
      | some d => if d < base then parseUintDigits base cs (n * base + d) else none

/-- The loop of `underscoreOK` in `strconv`: an underscore has to follow a digit or the
base prefix and to precede a digit; `saw` is 0 at the start, 1 after a digit or the
prefix, 2 after an underscore, 3 after anything else. -/
def underscoreLoop (hex : Bool) : List Char → Nat → Bool
  | [], saw => saw ≠ 2
  | c :: cs, saw =>
    let n := c.toNat
    if (48 ≤ n ∧ n ≤ 57) ∨ (hex = true ∧ ((97 ≤ n ∧ n ≤ 102) ∨ (65 ≤ n ∧ n ≤ 70))) then
      underscoreLoop hex cs 1
    else if c = '_' then
      if saw = 1 then underscoreLoop hex cs 2 else false
    else if saw = 2 then false
    else underscoreLoop hex cs 3

/-- The routine `underscoreOK` of `strconv`, on a text without sign. -/
def underscoreOK (cs : List Char) : Bool :=
  match cs with
  | '0' :: p :: rest =>
    if p = 'b' ∨ p = 'B' ∨ p = 'o' ∨ p = 'O' then underscoreLoop false rest 1
    else if p = 'x' ∨ p = 'X' then underscoreLoop true rest 1
    else underscoreLoop false cs 0
  | _ => underscoreLoop false cs 0

/-- The routine `strconv.ParseUint(s, 0, 64)` without the range check: the base is read
off the prefix. -/
def parseUint (cs : List Char) : Option Nat :=
  match cs with
  | [] => none
  | '0' :: rest =>
    let r :=
      match rest with
      | p :: d :: ds =>
        if p = 'b' ∨ p = 'B' then parseUintDigits 2 (d :: ds) 0
        else if p = 'o' ∨ p = 'O' then parseUintDigits 8 (d :: ds) 0
        else if p = 'x' ∨ p = 'X' then parseUintDigits 16 (d :: ds) 0
        else parseUintDigits 8 rest 0
      | _ => parseUintDigits 8 rest 0
    if underscoreOK cs then r else none
  | _ :: _ => if underscoreOK cs then parseUintDigits 10 cs 0 else none

/-- The routine `strconv.ParseInt(s, 0, 64)`, as `flag.IntVar` reads the value of `-c`:
`none` is a syntax or range error. -/
def parseInt (s : String) : Option Int :=
  match s.toList with
  | [] => none
  | '+' :: cs =>
    match parseUint cs with
    | some n => if n < 2 ^ 63 then some (n : Int) else none
    | none => none
  | '-' :: cs =>
    match parseUint cs with
    | some n => if n ≤ 2 ^ 63 then some (-(n : Int)) else none
    | none => none
  | cs =>
    match parseUint cs with
    | some n => if n < 2 ^ 63 then some (n : Int) else none
    | none => none

/-- The name and the value of a flag written `name=value`; the sign `=` cannot be first. -/
def splitValue : List Char → List Char × Option (List Char)
  | [] => ([], none)
  | c :: cs =>
    match cs with
    | [] => ([c], none)
    | d :: ds =>
      if d = '=' then ([c], some ds)
      else
        let r := splitValue cs
        (c :: r.1, r.2)

/-- The text of a flag without its one or two dashes; `none` when the argument is not a
flag (`parseOne` returns false without error), `some none` on bad flag syntax. -/
def flagName (s : String) : Option (Option (List Char)) :=
  match s.toList with
  | '-' :: '-' :: [] => none
  | '-' :: '-' :: c :: cs => if c = '-' ∨ c = '=' then some none else some (some (c :: cs))
  | '-' :: c :: cs => if c = '=' then some none else some (some (c :: cs))
  | _ => none

/-- The routine `flag.Parse()` over the four flags that lines 39 to 42 of `main` define,
`fl` holding the values so far: the values of the flags when it returns, `none` when it
ends the process (a flag that is not defined, `-h`, `-help`, a bad value, a missing
value, bad flag syntax). -/
def flagParse (fl : Flags) : List String → Option Flags
  | [] => some fl
  | s :: rest =>
    match flagName s with
    | none => some fl
    | some none => none
    | some (some text) =>
      let name := String.mk (splitValue text).1
      let value := (splitValue text).2
      if name = "json" then
        match value with
        | none => flagParse { fl with jsonOutput := true } rest
        | some v =>
          match parseBool (String.mk v) with
          | none => none
          | some b => flagParse { fl with jsonOutput := b } rest
      else if name = "csv" then
        match value with
        | none => flagParse { fl with csvOutput := true } rest
        | some v =>
          match parseBool (String.mk v) with
          | none => none
          | some b => flagParse { fl with csvOutput := b } rest
      else if name = "open" then
        match value with
        | none => flagParse { fl with onlyHost := true } rest
        | some v =>
          match parseBool (String.mk v) with
          | none => none
          | some b => flagParse { fl with onlyHost := b } rest
      else if name = "c" then
        match value with
        | some v =>
          match parseInt (String.mk v) with
          | none => none
          | some n => flagParse { fl with concurrency := n } rest
        | none =>
          match rest with
          | [] => none
          | v :: rest' =>
            match parseInt v with
            | none => none
            | some n => flagParse { fl with concurrency := n } rest'
      else none

/-- The sample world: `flag.Parse()` from the defaults of lines 39 to 42, the sample
network and decoder, the Target Expander of the specification, `strings.TrimSpace`. -/
def sampleLib : Lib :=
  { FlagParse := flagParse defaultFlags, Get := sampleGet, Unmarshal := sampleUnmarshal,
    ParseCIDR := specParseCIDR, IPAddresses := specIPAddresses, TrimSpace := trimSpace }


/-! ## The worker pool of `main` -/

/-- The addresses `StartJob(raw)` calls `GetIPInfo` on, in order: the token itself when
`net.ParseCIDR` rejects it, the addresses of `mapcidr.IPAddresses` otherwise. -/
def targets (lib : Lib) (raw : String) : List String :=
  if lib.ParseCIDR raw = false then [raw]
  else
    match lib.IPAddresses raw with
    | Except.ok ips => ips
    | Except.error _ => []

/-- Where one worker goroutine of `main` (lines 59 to 65) stands: blocked on
`for job := range jobs`; inside `StartJob(job)` with the addresses in `ips` still to be
looked up; inside `sendGET(ip)`, the request on the network, with the addresses in `rest`
to follow; or returned, `wg.Done()` executed. -/
inductive Worker where
  | receiving
  | working (ips : List String)
  | calling (ip : String) (rest : List String)
  | returned
deriving DecidableEq, Repr

/-- The streaming part of `main` (lines 54 to 78) at one instant: what the producer
goroutine still has to do, the buffer of the channel `jobs`, whether the channel is
closed, and the worker goroutines. -/
structure Pool where
  ops : List ChanOp
  jobs : List String
  closed : Bool
  workers : List Worker
deriving DecidableEq, Repr

/-- Lines 54 to 77 of `main`: `make(chan string, concurrency)`, one worker goroutine per
turn of the loop `for i := 0; i < concurrency; i++`, and the producer goroutine over the
tokens of the scanner. `none` is the panic of `make` on a negative size. -/
def startPool (fl : Flags) (lib : Lib) (scans : List Scan) : Option Pool :=
  if fl.concurrency < 0 then none
  else
    some { ops := producer lib scans, jobs := [], closed := false,
           workers := List.replicate fl.concurrency.toNat Worker.receiving }

/-- One step of one goroutine: the producer sends or closes; worker `w` receives a job,
starts the request for its next address, gets the answer and finishes `GetIPInfo`, ends
`StartJob`, or leaves the loop over the closed and drained channel. -/
inductive Action where
  | send
  | close
  | recv (w : Nat)
  | call (w : Nat)
  | answer (w : Nat)
  | finish (w : Nat)
  | leave (w : Nat)
deriving DecidableEq, Repr

/-- The effect of one step on the pool, for a channel of capacity `cap`; `none` when the
goroutine cannot take that step in that state (a send blocks while the buffer is full, a
receive blocks while it is empty). -/
def fire (lib : Lib) (cap : Nat) (s : Pool) : Action → Option Pool
  | Action.send =>
    match s.ops with
    | ChanOp.send job :: rest =>
      if s.jobs.length < cap ∧ s.closed = false then
        some { s with ops := rest, jobs := s.jobs ++ [job] }
      else none
    | _ => none
  | Action.close =>
    match s.ops with
    | ChanOp.close :: rest =>
      if s.closed = false then some { s with ops := rest, closed := true } else none
    | _ => none
  | Action.recv w =>
    match s.workers[w]?, s.jobs with
    | some Worker.receiving, job :: rest =>
      some { s with jobs := rest, workers := s.workers.set w (Worker.working (targets lib job)) }
    | _, _ => none
  | Action.call w =>
    match s.workers[w]? with
    | some (Worker.working (ip :: rest)) =>
      some { s with workers := s.workers.set w (Worker.calling ip rest) }
    | _ => none
  | Action.answer w =>
    match s.workers[w]? with
    | some (Worker.calling _ rest) =>
      some { s with workers := s.workers.set w (Worker.working rest) }
    | _ => none
  | Action.finish w =>
    match s.workers[w]? with
    | some (Worker.working []) =>
      some { s with workers := s.workers.set w Worker.receiving }
    | _ => none
  | Action.leave w =>
    match s.workers[w]?, s.jobs with
    | some Worker.receiving, [] =>
      if s.closed = true then some { s with workers := s.workers.set w Worker.returned }
      else none
    | _, _ => none

/-- An execution: the steps of a schedule taken one after the other; `none` when a step
of the schedule cannot be taken. -/
def run (lib : Lib) (cap : Nat) : List Action → Pool → Option Pool
  | [], s => some s
  | a :: rest, s =>
    match fire lib cap s a with
    | none => none
    | some s' => run lib cap rest s'

/-- Whether a worker is inside a network call. -/
def Worker.inCall : Worker → Bool
  | Worker.calling _ _ => true
  | _ => false

/-- The number of addresses undergoing a network call. -/
def inFlight (s : Pool) : Nat :=
  s.workers.countP Worker.inCall

/-- What every state of an execution satisfies, for the concurrency `N`: there are `N`
workers and the buffer holds at most `N` targets. -/
def PoolInv (N : Nat) (s : Pool) : Prop :=
  s.workers.length = N ∧ s.jobs.length ≤ N

/-! ## Lemmas on the embedding -/

theorem stdoutLines_append (xs ys : List Event) :
    stdoutLines (xs ++ ys) = stdoutLines xs ++ stdoutLines ys := by
  simp [stdoutLines, List.filterMap_append]

theorem getURLs_append (xs ys : List Event) :
    getURLs (xs ++ ys) = getURLs xs ++ getURLs ys := by
  simp [getURLs, List.filterMap_append]

/-- The result of `sendGET`, read off the answer of `client.Get`. -/
theorem sendGET_eq (lib : Lib) (IP : String) :
    sendGET lib IP =
      match lib.Get (ipURL IP) with
      | Except.error err => ("", [Event.get (ipURL IP), Event.stderr err])
      | Except.ok resp =>
        match resp.Body with
        | Except.error err => ("", [Event.get (ipURL IP), Event.stderr err])
        | Except.ok body => (body, [Event.get (ipURL IP)]) := rfl

theorem sendGET_stdout (lib : Lib) (IP : String) :
    stdoutLines (sendGET lib IP).2 = [] := by
  rw [sendGET_eq]
  cases lib.Get (ipURL IP) with
  | error e => rfl
  | ok resp =>
    obtain ⟨st, body⟩ := resp
    cases body with
    | error e => rfl
    | ok body => rfl

theorem sendGET_urls (lib : Lib) (IP : String) :
    getURLs (sendGET lib IP).2 = [ipURL IP] := by
  rw [sendGET_eq]
  cases lib.Get (ipURL IP) with
  | error e => rfl
  | ok resp =>
    obtain ⟨st, body⟩ := resp
    cases body with
    | error e => rfl
    | ok body => rfl

theorem printPorts_urls (fl : Flags) (IP : String) (info : ShodanIPInfo) (ports : List Int) :
    getURLs (printPorts fl IP info ports) = [] := by
  induction ports with
  | nil => rfl
  | cons p ps ih =>
    unfold printPorts
    by_cases h : fl.onlyHost = true
    · simpa [h, getURLs] using ih
    · simpa [h, getURLs] using ih

theorem printPorts_hostOnly (fl : Flags) (IP : String) (info : ShodanIPInfo) (ports : List Int)
    (h : fl.onlyHost = true) :
    stdoutLines (printPorts fl IP info ports) = ports.map fun p => IP ++ ":" ++ toString p := by
  induction ports with
  | nil => rfl
  | cons p ps ih =>
    unfold printPorts
    simpa [h, stdoutLines] using ih

theorem printPorts_full (fl : Flags) (IP : String) (info : ShodanIPInfo) (ports : List Int)
    (h : fl.onlyHost = false) :
    stdoutLines (printPorts fl IP info ports) = ports.map fun p =>
      IP ++ ":" ++ toString p ++ "," ++ String.intercalate ";" info.Hostnames
        ++ "," ++ String.intercalate ";" info.Tags
        ++ "," ++ String.intercalate ";" info.Cpes
        ++ "," ++ String.intercalate ";" info.Vulns := by
  induction ports with
  | nil => rfl
  | cons p ps ih =>
    unfold printPorts
    simpa [h, stdoutLines] using ih

/-- The body of `GetIPInfo`, with the pair `sendGET` returns taken apart. -/
theorem GetIPInfo_eq (fl : Flags) (lib : Lib) (IP : String) :
    GetIPInfo fl lib IP =
      if (sendGET lib IP).1 = "" then (sendGET lib IP).2
      else if fl.jsonOutput = true then (sendGET lib IP).2 ++ [Event.stdout (sendGET lib IP).1]
      else
        match lib.Unmarshal (sendGET lib IP).1 with
        | none => (sendGET lib IP).2
        | some info =>
          if fl.csvOutput = true then (sendGET lib IP).2 ++ printPorts fl IP info info.Ports
          else (sendGET lib IP).2 := rfl

/-- Every call of `GetIPInfo` sends exactly one request, for the address it is given. -/
theorem GetIPInfo_urls (fl : Flags) (lib : Lib) (IP : String) :
    getURLs (GetIPInfo fl lib IP) = [ipURL IP] := by
  have hu := sendGET_urls lib IP
  rw [GetIPInfo_eq]
  by_cases h1 : (sendGET lib IP).1 = ""
  · rw [if_pos h1]; exact hu
  · rw [if_neg h1]
    by_cases h2 : fl.jsonOutput = true
    · rw [if_pos h2, getURLs_append, hu]; rfl
    · rw [if_neg h2]
      cases lib.Unmarshal (sendGET lib IP).1 with
      | none => exact hu
      | some info =>
        by_cases h3 : fl.csvOutput = true
        · simp only [if_pos h3]
          rw [getURLs_append, hu, printPorts_urls]; rfl
        · simp only [if_neg h3]
          exact hu

/-- The standard output of `GetIPInfo`, case by case. -/
theorem GetIPInfo_stdout (fl : Flags) (lib : Lib) (IP : String) :
    stdoutLines (GetIPInfo fl lib IP) =
      if (sendGET lib IP).1 = "" then []
      else if fl.jsonOutput = true then [(sendGET lib IP).1]
      else
        match lib.Unmarshal (sendGET lib IP).1 with
        | none => []
        | some info =>
          if fl.csvOutput = true then stdoutLines (printPorts fl IP info info.Ports) else [] := by
  have hs := sendGET_stdout lib IP
  rw [GetIPInfo_eq]
  by_cases h1 : (sendGET lib IP).1 = ""
  · rw [if_pos h1, if_pos h1]; exact hs
  · rw [if_neg h1, if_neg h1]
    by_cases h2 : fl.jsonOutput = true
    · rw [if_pos h2, if_pos h2, stdoutLines_append, hs]; rfl
    · rw [if_neg h2, if_neg h2]
      cases lib.Unmarshal (sendGET lib IP).1 with
      | none => exact hs
      | some info =>
        by_cases h3 : fl.csvOutput = true
        · simp only [if_pos h3]
          rw [stdoutLines_append, hs]; rfl
        · simp only [if_neg h3]
          exact hs

theorem rangeIPs_eq (fl : Flags) (lib : Lib) (ips : List String) (acc : List Event) :
    rangeIPs fl lib ips acc = acc ++ (ips.map (GetIPInfo fl lib)).flatten := by
  induction ips generalizing acc with
  | nil => simp [rangeIPs]
  | cons ip rest ih => simp [rangeIPs, ih, List.append_assoc]

theorem stdoutLines_flatten (L : List (List Event)) :
    stdoutLines L.flatten = (L.map stdoutLines).flatten := by
  induction L with
  | nil => rfl
  | cons x xs ih => simp [stdoutLines_append, ih]

theorem getURLs_flatten (L : List (List Event)) :
    getURLs L.flatten = (L.map getURLs).flatten := by
  induction L with
  | nil => rfl
  | cons x xs ih => simp [getURLs_append, ih]


/-! ## The output modes of `GetIPInfo` -/

/-- C1: with the json flag off, the csv flag on and the open flag off, `GetIPInfo` on a
payload that decodes to the record `info` prints one line per port of `info.Ports`, in
that order, the line of port `p` being `IP:p,H,T,C,V` with the hostnames, tags, CPEs and
vulnerabilities each joined with `;` (an empty group is the empty string). For the ports
22 and 80, the hostname `a.com`, no tag, the CPE `cpe:/a` and no vulnerability the lines
are `IP:22,a.com,,cpe:/a,` and `IP:80,a.com,,cpe:/a,`. -/
theorem csv_full_lines (fl : Flags) (lib : Lib) (IP : String) (info : ShodanIPInfo)
    (hjson : fl.jsonOutput = false) (hcsv : fl.csvOutput = true) (hopen : fl.onlyHost = false)
    (hdata : (sendGET lib IP).1 ≠ "")
    (hdec : lib.Unmarshal (sendGET lib IP).1 = some info) :
    stdoutLines (GetIPInfo fl lib IP) =
        info.Ports.map (fun p =>
          IP ++ ":" ++ toString p ++ "," ++ String.intercalate ";" info.Hostnames
            ++ "," ++ String.intercalate ";" info.Tags
            ++ "," ++ String.intercalate ";" info.Cpes
            ++ "," ++ String.intercalate ";" info.Vulns)
      ∧ (stdoutLines (GetIPInfo fl lib IP)).length = info.Ports.length
      ∧ (info.Ports = [22, 80] → info.Hostnames = ["a.com"] → info.Tags = [] →
          info.Cpes = ["cpe:/a"] → info.Vulns = [] →
          stdoutLines (GetIPInfo fl lib IP) =
            [IP ++ ":22,a.com,,cpe:/a,", IP ++ ":80,a.com,,cpe:/a,"]) := by
  have key : stdoutLines (GetIPInfo fl lib IP) =
      info.Ports.map (fun p =>
        IP ++ ":" ++ toString p ++ "," ++ String.intercalate ";" info.Hostnames
          ++ "," ++ String.intercalate ";" info.Tags
          ++ "," ++ String.intercalate ";" info.Cpes
          ++ "," ++ String.intercalate ";" info.Vulns) := by
    rw [GetIPInfo_stdout, if_neg hdata, hjson, hdec]
    simp only [hcsv, if_true, Bool.false_eq_true, if_false]
    exact printPorts_full fl IP info info.Ports hopen
  refine ⟨key, ?_, ?_⟩
  · rw [key, List.length_map]
  · intro hp hh ht hc hv
    rw [key, hp, hh, ht, hc, hv]
    simp only [List.map, String.append_assoc]
    rfl

/-- C1, at the sample world: the address `10.0.0.1` in the default mode. -/
theorem csv_full_lines_witness :
    stdoutLines (GetIPInfo defaultFlags sampleLib "10.0.0.1")
      = ["10.0.0.1:22,a.com,,cpe:/a,", "10.0.0.1:80,a.com,,cpe:/a,"] :=
  ((csv_full_lines defaultFlags sampleLib "10.0.0.1" sampleInfo rfl rfl rfl
    (by decide) (by decide)).2.2 rfl rfl rfl rfl rfl)

/-- C2: with the json flag off, the csv flag on and the open flag on, `GetIPInfo` on a
payload that decodes to the record `info` prints one line per port of `info.Ports`, in
that order, the line of port `p` being exactly `IP:p`, whatever the other fields of the
record are; a record without ports gives no line. -/
theorem csv_host_only_lines (fl : Flags) (lib : Lib) (IP : String) (info : ShodanIPInfo)
    (hjson : fl.jsonOutput = false) (hcsv : fl.csvOutput = true) (hopen : fl.onlyHost = true)
    (hdata : (sendGET lib IP).1 ≠ "")
    (hdec : lib.Unmarshal (sendGET lib IP).1 = some info) :
    stdoutLines (GetIPInfo fl lib IP) = info.Ports.map (fun p => IP ++ ":" ++ toString p)
      ∧ (stdoutLines (GetIPInfo fl lib IP)).length = info.Ports.length
      ∧ (info.Ports = [] → stdoutLines (GetIPInfo fl lib IP) = []) := by
  have key : stdoutLines (GetIPInfo fl lib IP)
      = info.Ports.map (fun p => IP ++ ":" ++ toString p) := by
    rw [GetIPInfo_stdout, if_neg hdata, hjson, hdec]
    simp only [hcsv, if_true, Bool.false_eq_true, if_false]
    exact printPorts_hostOnly fl IP info info.Ports hopen
  refine ⟨key, ?_, ?_⟩
  · rw [key, List.length_map]
  · intro hp
    rw [key, hp]
    rfl

/-- C2, at the sample world: the address `10.0.0.1` with the open flag. -/
theorem csv_host_only_lines_witness :
    stdoutLines (GetIPInfo { defaultFlags with onlyHost := true } sampleLib "10.0.0.1")
      = ["10.0.0.1:22", "10.0.0.1:80"] :=
  (csv_host_only_lines { defaultFlags with onlyHost := true } sampleLib "10.0.0.1" sampleInfo
    rfl rfl rfl (by decide) (by decide)).1.trans (by decide)


/-- C3, refuted as stated: a lookup that returns the empty payload prints no line in
json mode, where C3 as stated has the (empty) payload printed on one line. -/
theorem json_mode_empty_payload :
    ¬ ∀ (fl : Flags) (lib : Lib) (IP : String) (status : Nat) (payload : String),
        fl.jsonOutput = true →
        lib.Get (ipURL IP) = Except.ok { StatusCode := status, Body := Except.ok payload } →
        stdoutLines (GetIPInfo fl lib IP) = [payload] := by
  intro h
  have h2 := h { defaultFlags with jsonOutput := true } sampleLib "10.0.0.2" 200 "" rfl rfl
  revert h2
  decide

/-- C3, amended: in json mode (whatever the csv and open flags are) `GetIPInfo` on a
non-empty payload prints exactly the payload, as one line, and nothing of the run depends
on the decoder or on the two other flags. -/
theorem json_mode_verbatim (fl : Flags) (lib : Lib) (IP : String) (status : Nat)
    (payload : String) (hjson : fl.jsonOutput = true)
    (hget : lib.Get (ipURL IP) = Except.ok { StatusCode := status, Body := Except.ok payload })
    (hne : payload ≠ "") :
    stdoutLines (GetIPInfo fl lib IP) = [payload]
      ∧ GetIPInfo fl lib IP = [Event.get (ipURL IP), Event.stdout payload]
      ∧ ∀ (fl' : Flags) (lib' : Lib), fl'.jsonOutput = true → lib'.Get = lib.Get →
          GetIPInfo fl' lib' IP = GetIPInfo fl lib IP := by
  have hs : ∀ lib' : Lib, lib'.Get = lib.Get →
      sendGET lib' IP = (payload, [Event.get (ipURL IP)]) := by
    intro lib' hl
    rw [sendGET_eq, hl, hget]
  have hg : ∀ (fl' : Flags) (lib' : Lib), fl'.jsonOutput = true → lib'.Get = lib.Get →
      GetIPInfo fl' lib' IP = [Event.get (ipURL IP), Event.stdout payload] := by
    intro fl' lib' hj hl
    rw [GetIPInfo_eq, hs lib' hl, if_neg hne, if_pos hj]
    rfl
  refine ⟨?_, hg fl lib hjson rfl, ?_⟩
  · rw [hg fl lib hjson rfl]
    rfl
  · intro fl' lib' hj hl
    rw [hg fl' lib' hj hl, hg fl lib hjson rfl]

/-- C3 amended, at the sample world: the address `10.0.0.1` with the json flag (and the
csv flag, on by default). -/
theorem json_mode_verbatim_witness :
    stdoutLines (GetIPInfo { defaultFlags with jsonOutput := true } sampleLib "10.0.0.1")
      = [sampleBody] :=
  (json_mode_verbatim { defaultFlags with jsonOutput := true } sampleLib "10.0.0.1" 200
    sampleBody rfl rfl (by decide)).1

/-! ## `StartJob` -/

/-- C5: on a token that `net.ParseCIDR` rejects (a bare address, a host name, a malformed
token) `StartJob` does what one call of `GetIPInfo` on the token does: exactly one request
is sent, for the token unchanged. `StartJob` is a total function, no token makes it fail. -/
theorem bare_token_passthrough (fl : Flags) (lib : Lib) (raw : String)
    (h : lib.ParseCIDR raw = false) :
    StartJob fl lib raw = GetIPInfo fl lib raw
      ∧ getURLs (StartJob fl lib raw) = [ipURL raw] := by
  have h1 : StartJob fl lib raw = GetIPInfo fl lib raw := by
    unfold StartJob
    rw [if_pos h]
  exact ⟨h1, by rw [h1, GetIPInfo_urls]⟩

/-- C5, at the sample world: a bare address, a host name and a malformed CIDR token. -/
theorem bare_token_passthrough_witness :
    getURLs (StartJob defaultFlags sampleLib "10.0.0.1") = [ipURL "10.0.0.1"]
      ∧ getURLs (StartJob defaultFlags sampleLib "example.com") = [ipURL "example.com"]
      ∧ getURLs (StartJob defaultFlags sampleLib "10.0.0.1/33") = [ipURL "10.0.0.1/33"] :=
  ⟨(bare_token_passthrough defaultFlags sampleLib "10.0.0.1" (by decide)).2,
   (bare_token_passthrough defaultFlags sampleLib "example.com" (by decide)).2,
   (bare_token_passthrough defaultFlags sampleLib "10.0.0.1/33" (by decide)).2⟩

/-- C6, refuted as stated: the sample service answers 404 with a body for `10.0.0.9`;
`sendGET` returns that body, and json mode prints it. -/
theorem non_success_status_is_data :
    ¬ ∀ (fl : Flags) (lib : Lib) (IP : String) (resp : Response),
        lib.Get (ipURL IP) = Except.ok resp →
        ¬ (200 ≤ resp.StatusCode ∧ resp.StatusCode < 300) →
        (sendGET lib IP).1 = "" ∧ stdoutLines (GetIPInfo fl lib IP) = [] := by
  intro h
  have h2 := h { defaultFlags with jsonOutput := true } sampleLib "10.0.0.9"
    { StatusCode := 404, Body := Except.ok notFoundBody } rfl (by decide)
  revert h2
  decide

/-- C6, amended: a lookup fails, in every output mode, when the request fails (an error
of `client.Get`, or an error while the body is read) or when the body is empty: `sendGET`
returns no data and `GetIPInfo` prints no line. The status of a response is not looked
at: for a response of any status `sendGET` returns the body, and json mode prints a
non-empty body as one line. -/
theorem failed_request_is_failure (fl : Flags) (lib : Lib) (IP : String) :
    (∀ err, lib.Get (ipURL IP) = Except.error err →
        (sendGET lib IP).1 = "" ∧ stdoutLines (GetIPInfo fl lib IP) = [])
      ∧ (∀ status err,
        lib.Get (ipURL IP) = Except.ok { StatusCode := status, Body := Except.error err } →
        (sendGET lib IP).1 = "" ∧ stdoutLines (GetIPInfo fl lib IP) = [])
      ∧ (∀ status,
        lib.Get (ipURL IP) = Except.ok { StatusCode := status, Body := Except.ok "" } →
        (sendGET lib IP).1 = "" ∧ stdoutLines (GetIPInfo fl lib IP) = [])
      ∧ (∀ status body,
        lib.Get (ipURL IP) = Except.ok { StatusCode := status, Body := Except.ok body } →
        (sendGET lib IP).1 = body)
      ∧ (∀ status body,
        lib.Get (ipURL IP) = Except.ok { StatusCode := status, Body := Except.ok body } →
        body ≠ "" → fl.jsonOutput = true → stdoutLines (GetIPInfo fl lib IP) = [body]) := by
  have hnone : (sendGET lib IP).1 = "" → stdoutLines (GetIPInfo fl lib IP) = [] := by
    intro h
    rw [GetIPInfo_stdout, if_pos h]
  refine ⟨?_, ?_, ?_, ?_, ?_⟩
  · intro err hg
    have h : (sendGET lib IP).1 = "" := by rw [sendGET_eq, hg]
    exact ⟨h, hnone h⟩
  · intro status err hg
    have h : (sendGET lib IP).1 = "" := by rw [sendGET_eq, hg]
    exact ⟨h, hnone h⟩
  · intro status hg
    have h : (sendGET lib IP).1 = "" := by rw [sendGET_eq, hg]
    exact ⟨h, hnone h⟩
  · intro status body hg
    rw [sendGET_eq, hg]
  · intro status body hg hne hj
    have h : (sendGET lib IP).1 = body := by rw [sendGET_eq, hg]
    rw [GetIPInfo_stdout, h, if_neg hne, if_pos hj]

/-- C6 amended, at the sample world in json mode: the host that cannot be reached and
the host that breaks off print nothing, the 404 answer of `10.0.0.9` is printed. -/
theorem failed_request_is_failure_witness :
    stdoutLines (GetIPInfo { defaultFlags with jsonOutput := true } sampleLib "down") = []
      ∧ stdoutLines (GetIPInfo { defaultFlags with jsonOutput := true } sampleLib "reset") = []
      ∧ (sendGET sampleLib "10.0.0.9").1 = notFoundBody
      ∧ stdoutLines (GetIPInfo { defaultFlags with jsonOutput := true } sampleLib "10.0.0.9")
          = [notFoundBody] :=
  have h₁ := failed_request_is_failure { defaultFlags with jsonOutput := true } sampleLib "down"
  have h₂ := failed_request_is_failure { defaultFlags with jsonOutput := true } sampleLib "reset"
  have h₃ := failed_request_is_failure { defaultFlags with jsonOutput := true } sampleLib
    "10.0.0.9"
  ⟨(h₁.1 _ rfl).2, (h₂.2.1 200 _ rfl).2, h₃.2.2.2.1 404 _ rfl,
   h₃.2.2.2.2 404 _ rfl (by decide) rfl⟩

/-- On a CIDR target the events of `StartJob` are those of `GetIPInfo` on each address
of the expansion, in order. -/
theorem StartJob_cidr (fl : Flags) (lib : Lib) (raw : String) (ips : List String)
    (hcidr : lib.ParseCIDR raw = true) (hips : lib.IPAddresses raw = Except.ok ips) :
    StartJob fl lib raw = (ips.map (GetIPInfo fl lib)).flatten := by
  unfold StartJob
  rw [if_neg (by simp [hcidr]), hips]
  simp only
  rw [rangeIPs_eq, List.nil_append]

/-- On a CIDR target `StartJob` sends one request per address of the expansion, in order. -/
theorem StartJob_cidr_urls (fl : Flags) (lib : Lib) (raw : String) (ips : List String)
    (hcidr : lib.ParseCIDR raw = true) (hips : lib.IPAddresses raw = Except.ok ips) :
    getURLs (StartJob fl lib raw) = ips.map ipURL := by
  have hall : ∀ l : List String,
      (l.map (getURLs ∘ GetIPInfo fl lib)).flatten = l.map ipURL := by
    intro l
    induction l with
    | nil => rfl
    | cons ip rest ih => simp [GetIPInfo_urls, ih]
  rw [StartJob_cidr fl lib raw ips hcidr hips, getURLs_flatten, List.map_map]
  exact hall ips

/-- C7: on a CIDR target whose addresses are `ips`, the events of `StartJob` are those of
`GetIPInfo` on each address, one after the other in the order of `ips`, and so are the
lines printed and the requests sent. An address whose request fails, whose body is empty,
or whose payload does not decode prints nothing, and the addresses before and after it
print what they print without it. -/
theorem per_address_isolation (fl : Flags) (lib : Lib) (raw : String) (ips : List String)
    (hcidr : lib.ParseCIDR raw = true) (hips : lib.IPAddresses raw = Except.ok ips) :
    StartJob fl lib raw = (ips.map (GetIPInfo fl lib)).flatten
      ∧ stdoutLines (StartJob fl lib raw)
          = (ips.map fun ip => stdoutLines (GetIPInfo fl lib ip)).flatten
      ∧ getURLs (StartJob fl lib raw) = ips.map ipURL
      ∧ (∀ ip,
          ((∃ err, lib.Get (ipURL ip) = Except.error err)
            ∨ (∃ status err, lib.Get (ipURL ip)
                = Except.ok { StatusCode := status, Body := Except.error err })
            ∨ (∃ status, lib.Get (ipURL ip)
                = Except.ok { StatusCode := status, Body := Except.ok "" })
            ∨ (fl.jsonOutput = false ∧ lib.Unmarshal (sendGET lib ip).1 = none)) →
          stdoutLines (GetIPInfo fl lib ip) = [])
      ∧ (∀ pre ip post, ips = pre ++ ip :: post → stdoutLines (GetIPInfo fl lib ip) = [] →
          stdoutLines (StartJob fl lib raw)
            = (pre.map fun ip => stdoutLines (GetIPInfo fl lib ip)).flatten
              ++ (post.map fun ip => stdoutLines (GetIPInfo fl lib ip)).flatten) := by
  have h1 : StartJob fl lib raw = (ips.map (GetIPInfo fl lib)).flatten :=
    StartJob_cidr fl lib raw ips hcidr hips
  have h2 : stdoutLines (StartJob fl lib raw)
      = (ips.map fun ip => stdoutLines (GetIPInfo fl lib ip)).flatten := by
    rw [h1, stdoutLines_flatten, List.map_map]
    rfl
  refine ⟨h1, h2, ?_, ?_, ?_⟩
  · exact StartJob_cidr_urls fl lib raw ips hcidr hips
  · intro ip hfail
    rw [GetIPInfo_stdout]
    rcases hfail with ⟨err, hg⟩ | ⟨status, err, hg⟩ | ⟨status, hg⟩ | ⟨hj, hd⟩
    · rw [if_pos (by rw [sendGET_eq, hg])]
    · rw [if_pos (by rw [sendGET_eq, hg])]
    · rw [if_pos (by rw [sendGET_eq, hg])]
    · by_cases h0 : (sendGET lib ip).1 = ""
      · rw [if_pos h0]
      · rw [if_neg h0, hj, hd]
        rfl
  · intro pre ip post hsplit hnil
    rw [h2, hsplit]
    simp [hnil]


/-- C7, at the sample world: of the block `10.0.0.0/30` only `10.0.0.1` has ports; the
404 answer, the empty body and the body that does not decode print nothing and the
four requests are sent in order. -/
theorem per_address_isolation_witness :
    stdoutLines (StartJob defaultFlags sampleLib "10.0.0.0/30")
        = ["10.0.0.1:22,a.com,,cpe:/a,", "10.0.0.1:80,a.com,,cpe:/a,"]
      ∧ getURLs (StartJob defaultFlags sampleLib "10.0.0.0/30")
        = [ipURL "10.0.0.0", ipURL "10.0.0.1", ipURL "10.0.0.2", ipURL "10.0.0.3"] :=
  have h := per_address_isolation defaultFlags sampleLib "10.0.0.0/30"
    ["10.0.0.0", "10.0.0.1", "10.0.0.2", "10.0.0.3"] (by decide) rfl
  ⟨h.2.1.trans (by decide), h.2.2.1⟩

/-! ## The producer -/

theorem sent_map_send (js : List String) : sent (js.map ChanOp.send) = js := by
  induction js with
  | nil => rfl
  | cons j rest ih => simpa [sent] using ih

theorem sent_append (xs ys : List ChanOp) : sent (xs ++ ys) = sent xs ++ sent ys := by
  simp [sent, List.filterMap_append]

/-- What the producer does on tokens read without error. -/
theorem producer_tokens (lib : Lib) (texts : List String) :
    producer lib (texts.map fun t => { text := t, err := none })
      = ((texts.map lib.TrimSpace).filter (fun url => url ≠ "")).map ChanOp.send
        ++ [ChanOp.close] := by
  induction texts with
  | nil => rfl
  | cons t rest ih =>
    by_cases h : lib.TrimSpace t = ""
    · simp [producer, h, ih]
    · simp [producer, h, ih]

/-- Lines shorter than the limit are all scanned, each without its carriage return. -/
theorem scanLines_fit (lines : List String)
    (hfit : ∀ l ∈ lines, (strBytes l).length < MaxScanTokenSize) :
    scanLines lines = (lines.map dropCR).map fun t => { text := t, err := none } := by
  induction lines with
  | nil => rfl
  | cons l rest ih =>
    have hl : (strBytes l).length < MaxScanTokenSize := hfit l (List.mem_cons_self l rest)
    have hr := ih (fun x hx => hfit x (List.mem_cons_of_mem l hx))
    simp only [scanLines, if_pos hl, hr, List.map_cons]

/-- The scan ends at the first line that is not shorter than the limit. -/
theorem scanLines_long (lines : List String) (long : String) (later : List String)
    (hfit : ∀ l ∈ lines, (strBytes l).length < MaxScanTokenSize)
    (hlong : ¬ (strBytes long).length < MaxScanTokenSize) :
    scanLines (lines ++ long :: later) = scanLines lines := by
  induction lines with
  | nil => simp only [List.nil_append, scanLines, if_neg hlong]
  | cons l rest ih =>
    have hl : (strBytes l).length < MaxScanTokenSize := hfit l (List.mem_cons_self l rest)
    have hr := ih (fun x hx => hfit x (List.mem_cons_of_mem l hx))
    show scanLines (l :: (rest ++ long :: later)) = scanLines (l :: rest)
    simp only [scanLines, if_pos hl]
    rw [hr]

/-- The routine `strings.TrimSpace` of the sample world takes the carriage return at the
end of a line away with the other white space. -/
theorem trimSpace_dropCR (l : String) : trimSpace (dropCR l) = trimSpace l := by
  unfold dropCR
  split
  · rfl
  · rename_i c rest hrev
    by_cases hc : c = '\r'
    · rw [if_pos hc]
      unfold trimSpace
      have h1 : (String.mk rest.reverse).toList.reverse = rest := List.reverse_reverse rest
      rw [h1, hrev, hc]
      rfl
    · rw [if_neg hc]

/-- The bytes of a line of `n` letters `x`. -/
theorem strBytes_replicate (n : Nat) :
    (strBytes (String.mk (List.replicate n 'x'))).length = n := by
  have h : ∀ k : Nat, ((List.replicate k 'x').flatMap utf8Bytes).length = k := by
    intro k
    induction k with
    | zero => rfl
    | succ k ih =>
      rw [List.replicate_succ, List.flatMap_cons, List.length_append, ih]
      have : (utf8Bytes 'x').length = 1 := by decide
      omega
  exact h n

/-- C9, refuted as stated: of the three input lines `first`, a line of 65536 letters
and `after`, only `first` is sent; the scanner stops at the long line and `after`, which
is not empty, is lost. -/
theorem long_line_ends_scan :
    ¬ ∀ (lib : Lib) (lines : List String),
        sent (producer lib (scanLines lines))
          = (lines.map lib.TrimSpace).filter (fun url => url ≠ "") := by
  intro h
  obtain ⟨long, hlong⟩ : ∃ long : String, ¬ (strBytes long).length < MaxScanTokenSize :=
    ⟨String.mk (List.replicate 65536 'x'), by rw [strBytes_replicate]; decide⟩
  have h2 := h sampleLib ["first", long, "after"]
  have hscan : scanLines ["first", long, "after"] = scanLines ["first"] :=
    scanLines_long ["first"] long ["after"] (by decide) hlong
  rw [hscan] at h2
  have hleft : sent (producer sampleLib (scanLines ["first"])) = ["first"] := by decide
  rw [hleft] at h2
  have hmem : "after" ∈ List.filter (fun url => decide (url ≠ ""))
      (List.map sampleLib.TrimSpace ["first", long, "after"]) := by
    rw [List.mem_filter]
    refine ⟨List.mem_map.mpr ⟨"after", ?_, by decide⟩, by decide⟩
    exact List.mem_cons_of_mem _ (List.mem_cons_of_mem _ (List.mem_singleton.mpr rfl))
  rw [← h2] at hmem
  revert hmem
  decide

/-- C9, amended: on input lines that are each shorter than 65536 bytes the producer
sends, in the order of the input, the trimmed lines that are not empty, each once, and
then closes the channel; no empty target is sent. A line of 65536 bytes or more ends the
scan: neither it nor any line after it is sent, and the channel is closed after the
lines before it. (`strings.TrimSpace` takes the carriage return of a line end away.) -/
theorem producer_sends_trimmed_lines (lib : Lib) (lines : List String)
    (hcr : ∀ l, lib.TrimSpace (dropCR l) = lib.TrimSpace l)
    (hfit : ∀ l ∈ lines, (strBytes l).length < MaxScanTokenSize) :
    producer lib (scanLines lines)
        = ((lines.map lib.TrimSpace).filter (fun url => url ≠ "")).map ChanOp.send
          ++ [ChanOp.close]
      ∧ sent (producer lib (scanLines lines))
        = (lines.map lib.TrimSpace).filter (fun url => url ≠ "")
      ∧ (∀ job, ChanOp.send job ∈ producer lib (scanLines lines) → job ≠ "")
      ∧ (∀ (long : String) (later : List String),
          ¬ (strBytes long).length < MaxScanTokenSize →
          producer lib (scanLines (lines ++ long :: later))
            = producer lib (scanLines lines)) := by
  have hmap : (lines.map dropCR).map lib.TrimSpace = lines.map lib.TrimSpace := by
    rw [List.map_map]
    exact List.map_congr_left (fun l _ => hcr l)
  have h1 : producer lib (scanLines lines)
      = ((lines.map lib.TrimSpace).filter (fun url => url ≠ "")).map ChanOp.send
        ++ [ChanOp.close] := by
    rw [scanLines_fit lines hfit, producer_tokens, hmap]
  refine ⟨h1, ?_, ?_, ?_⟩
  · rw [h1, sent_append, sent_map_send]
    exact List.append_nil _
  · intro job hj
    rw [h1] at hj
    simp at hj
    exact hj.2
  · intro long later hlong
    rw [scanLines_long lines long later hfit hlong]

/-- C9 amended, at the sample world: of four input lines the two that are not blank are
sent, trimmed, in order. -/
theorem producer_sends_trimmed_lines_witness :
    sent (producer sampleLib (scanLines ["  10.0.0.1 ", "", " \t", "10.0.0.0/30\r"]))
      = ["10.0.0.1", "10.0.0.0/30"] :=
  (producer_sends_trimmed_lines sampleLib ["  10.0.0.1 ", "", " \t", "10.0.0.0/30\r"]
    trimSpace_dropCR (by decide)).2.1.trans (by decide)

/-! ## The single-shot target -/

theorem sortStrings_length (args : List String) : (sortStrings args).length = args.length :=
  List.length_insertionSort StrLE args

theorem sortStrings_mem (args : List String) (a : String) :
    a ∈ sortStrings args ↔ a ∈ args :=
  (List.perm_insertionSort StrLE args).mem_iff

theorem sortedLast_eq_getLast? (args : List String) :
    sortedLast args = (sortStrings args).getLast? := by
  unfold sortedLast
  simp only
  rw [List.getLast?_eq_getElem?]
  by_cases h : (sortStrings args).length = 0
  · have h0 : sortStrings args = [] := List.length_eq_zero.mp h
    rw [h0]
    rfl
  · have hpos : 0 < (sortStrings args).length := Nat.pos_of_ne_zero h
    have hi : (0 : Int) ≤ ((sortStrings args).length : Int) - 1
        ∧ ((sortStrings args).length : Int) - 1 < ((sortStrings args).length : Int) := by
      omega
    rw [if_pos hi]
    congr 1
    omega

/-- The last element of a sorted list is at least every element. -/
theorem getLast_max (l : List String) (hs : l.Sorted StrLE) (t : String)
    (ht : l.getLast? = some t) : ∀ a ∈ l, StrLE a t := by
  intro a ha
  have hne : l ≠ [] := List.ne_nil_of_mem ha
  rw [List.getLast?_eq_getLast l hne] at ht
  have ht' : l.getLast hne = t := Option.some.inj ht
  have hsplit := List.dropLast_append_getLast hne
  rw [ht'] at hsplit
  rw [← hsplit] at ha hs
  have hp := List.pairwise_append.mp hs
  rcases List.mem_append.mp ha with h | h
  · exact hp.2.2 a h t (List.mem_singleton.mpr rfl)
  · rw [List.mem_singleton.mp h]
    exact le_refl (strBytes t)

/-- The bytes of a character are not the beginning of the bytes of another one. -/
theorem utf8Bytes_prefix_free (c d : Char) (r r' : List Nat)
    (h : utf8Bytes c ++ r = utf8Bytes d ++ r') : c = d ∧ r = r' := by
  have key : c.toNat = d.toNat ∧ r = r' := by
    unfold utf8Bytes at h
    simp only at h
    split_ifs at h <;> simp only [List.cons_append, List.nil_append, List.cons.injEq] at h <;>
      first
      | (exfalso; omega)
      | (refine ⟨by omega, ?_⟩; simp_all)
  refine ⟨?_, key.2⟩
  rw [← Char.ofNat_toNat c, ← Char.ofNat_toNat d, key.1]

theorem utf8Bytes_ne_nil (c : Char) : utf8Bytes c ≠ [] := by
  unfold utf8Bytes
  simp only
  split_ifs <;> simp

/-- Two strings with the same bytes are the same string. -/
theorem strBytes_injective (s t : String) (h : strBytes s = strBytes t) : s = t := by
  have hl : ∀ l₁ l₂ : List Char, l₁.flatMap utf8Bytes = l₂.flatMap utf8Bytes → l₁ = l₂ := by
    intro l₁
    induction l₁ with
    | nil =>
      intro l₂ h
      cases l₂ with
      | nil => rfl
      | cons d ds =>
        simp only [List.flatMap_nil, List.flatMap_cons] at h
        exact absurd (List.append_eq_nil.mp h.symm).1 (utf8Bytes_ne_nil d)
    | cons c cs ih =>
      intro l₂ h
      cases l₂ with
      | nil =>
        simp only [List.flatMap_nil, List.flatMap_cons] at h
        exact absurd (List.append_eq_nil.mp h).1 (utf8Bytes_ne_nil c)
      | cons d ds =>
        simp only [List.flatMap_cons] at h
        obtain ⟨hcd, hr⟩ := utf8Bytes_prefix_free c d _ _ h
        rw [hcd, ih ds hr]
  exact String.ext (hl s.toList t.toList h)

/-- The sorted order of the arguments is the same whatever the sorting routine. -/
theorem sortStrings_unique (args l : List String) (hperm : l.Perm args)
    (hsorted : l.Sorted StrLE) : l = sortStrings args :=
  @List.eq_of_perm_of_sorted String StrLE
    ⟨fun a b h₁ h₂ => strBytes_injective a b (@le_antisymm (List Nat) _ _ _ h₁ h₂)⟩ _ _
    (hperm.trans (List.perm_insertionSort StrLE args).symm) hsorted
    (List.sorted_insertionSort StrLE args)

/-- Lines 47 to 49 find a last argument exactly on a list that is not empty. -/
theorem sortedLast_isSome (args : List String) :
    (sortedLast args).isSome ↔ args ≠ [] := by
  rw [sortedLast_eq_getLast?]
  constructor
  · intro h hnil
    rw [hnil] at h
    exact absurd h (by decide)
  · intro hne
    have hs : sortStrings args ≠ [] := by
      intro h0
      have := sortStrings_length args
      rw [h0] at this
      exact hne (List.length_eq_zero.mp this.symm)
    rw [List.getLast?_eq_getLast _ hs]
    rfl

/-- C10, refuted as stated: the argument list `-h` is not empty, yet no target is
selected and `StartJob` is not reached: `flag.Parse()` prints the usage and ends the
process at line 43. -/
theorem help_flag_selects_nothing :
    ¬ ∀ (lib : Lib) (args : List String), (selectTarget lib args).isSome ↔ args ≠ [] := by
  intro h
  have h2 := (h sampleLib ["-h"]).mpr (by decide)
  revert h2
  decide

/-- C10, amended: the single-shot run selects a target exactly when `flag.Parse()`
accepts the argument list and the list is not empty; the target is the last element of
the sorted list, an argument that is at least every argument in the bytewise order, and
`StartJob` runs on it. When `flag.Parse()` ends the process (as on `-h` or on a flag that
is not defined) no target is selected and `StartJob` is not reached; on the empty list
the index is out of range, no target is selected and `StartJob` is not reached. The
arguments `1.1.1.1`, `-c`, `50` select `50`. The selection does not depend on the
sorting routine: every arrangement of the arguments in increasing order ends with the
selected target. -/
theorem single_shot_selects_sorted_last (lib : Lib) (args : List String) :
    ((selectTarget lib args).isSome ↔ (lib.FlagParse args).isSome ∧ args ≠ [])
      ∧ (∀ l : List String, (lib.FlagParse args).isSome → l.Perm args → l.Sorted StrLE →
          l.getLast? = selectTarget lib args)
      ∧ (∀ t, selectTarget lib args = some t →
          (sortStrings args).getLast? = some t ∧ t ∈ args ∧ (∀ a ∈ args, StrLE a t)
            ∧ ∃ fl, lib.FlagParse args = some fl
                ∧ singleShot lib args = some (StartJob fl lib t))
      ∧ (lib.FlagParse args = none →
          selectTarget lib args = none ∧ singleShot lib args = none)
      ∧ selectTarget lib [] = none
      ∧ singleShot lib [] = none
      ∧ selectTarget sampleLib ["1.1.1.1", "-c", "50"] = some "50"
      ∧ selectTarget sampleLib ["-h"] = none
      ∧ selectTarget sampleLib ["-x", "1.1.1.1"] = none := by
  refine ⟨?_, ?_, ?_, ?_, ?_, ?_, by decide, by decide, by decide⟩
  · unfold selectTarget
    cases hp : lib.FlagParse args with
    | none => simp
    | some fl =>
      simp only [Option.isSome_some, true_and]
      exact sortedLast_isSome args
  · intro l hacc hperm hsorted
    unfold selectTarget
    cases hp : lib.FlagParse args with
    | none => rw [hp] at hacc; exact absurd hacc (by decide)
    | some fl =>
      simp only
      rw [sortedLast_eq_getLast?, sortStrings_unique args l hperm hsorted]
  · intro t ht
    unfold selectTarget at ht
    cases hp : lib.FlagParse args with
    | none => rw [hp] at ht; exact absurd ht (by simp)
    | some fl =>
      rw [hp] at ht
      simp only at ht
      have hl : (sortStrings args).getLast? = some t := by
        rw [← sortedLast_eq_getLast?]; exact ht
      refine ⟨hl, ?_, ?_, fl, rfl, ?_⟩
      · exact (sortStrings_mem args t).mp (List.mem_of_getLast?_eq_some hl)
      · intro a ha
        exact getLast_max (sortStrings args) (List.sorted_insertionSort StrLE args) t hl a
          ((sortStrings_mem args a).mpr ha)
      · unfold singleShot
        rw [hp]
        simp only
        rw [ht]
  · intro hp
    unfold selectTarget singleShot
    rw [hp]
    exact ⟨rfl, rfl⟩
  · unfold selectTarget
    cases lib.FlagParse [] with
    | none => rfl
    | some fl => rfl
  · unfold singleShot
    cases lib.FlagParse [] with
    | none => rfl
    | some fl => rfl


/-! ## The Target Expander -/

theorem parseOctet_le (cs : List Char) (n : Nat) (h : parseOctet cs = some n) : n ≤ 255 := by
  unfold parseOctet at h
  split at h
  · exact absurd h (by simp)
  · split at h
    · cases h; assumption
    · exact absurd h (by simp)

/-- A token the parser accepts is an address below `2 ^ 32` and a prefix length up to 32. -/
theorem parseCIDR_bounds (raw : String) (a p : Nat) (h : parseCIDR raw = some (a, p)) :
    a < 2 ^ 32 ∧ p ≤ 32 := by
  unfold parseCIDR at h
  split at h
  · split at h
    · split at h
      · rename_i o₁ o₂ o₃ o₄ q h₁ h₂ h₃ h₄ _
        split at h
        · rename_i hq
          have e := Option.some.inj h
          have ea : o₁ * 2 ^ 24 + o₂ * 2 ^ 16 + o₃ * 2 ^ 8 + o₄ = a := congrArg Prod.fst e
          have ep : q = p := congrArg Prod.snd e
          have b₁ := parseOctet_le _ _ h₁
          have b₂ := parseOctet_le _ _ h₂
          have b₃ := parseOctet_le _ _ h₃
          have b₄ := parseOctet_le _ _ h₄
          constructor
          · rw [← ea]; norm_num; omega
          · rw [← ep]; exact hq
        · exact absurd h (by simp)
      · exact absurd h (by simp)
    · exact absurd h (by simp)
  · exact absurd h (by simp)

theorem cidrAddresses_length (a p : Nat) : (cidrAddresses a p).length = 2 ^ (32 - p) := by
  simp [cidrAddresses]

theorem cidrAddresses_sorted (a p : Nat) : (cidrAddresses a p).Sorted (· < ·) := by
  unfold cidrAddresses
  rw [List.Sorted, List.pairwise_map]
  exact (List.pairwise_lt_range _).imp (fun h => Nat.add_lt_add_left h _)

theorem cidrAddresses_mem (a p n : Nat) (ha : a < 2 ^ 32) (hp : p ≤ 32) :
    n ∈ cidrAddresses a p ↔ n < 2 ^ 32 ∧ n / 2 ^ (32 - p) = a / 2 ^ (32 - p) := by
  have hpos : 0 < 2 ^ (32 - p) := Nat.pow_pos (by norm_num)
  have hsplit : (2 : Nat) ^ 32 = 2 ^ p * 2 ^ (32 - p) := by
    rw [← pow_add]; congr 1; omega
  have hq : a / 2 ^ (32 - p) < 2 ^ p := by
    rw [Nat.div_lt_iff_lt_mul hpos, ← hsplit]; exact ha
  unfold cidrAddresses
  simp only [List.mem_map, List.mem_range]
  constructor
  · rintro ⟨i, hi, rfl⟩
    constructor
    · calc a / 2 ^ (32 - p) * 2 ^ (32 - p) + i
          < a / 2 ^ (32 - p) * 2 ^ (32 - p) + 2 ^ (32 - p) := Nat.add_lt_add_left hi _
        _ = (a / 2 ^ (32 - p) + 1) * 2 ^ (32 - p) := by ring
        _ ≤ 2 ^ p * 2 ^ (32 - p) := Nat.mul_le_mul_right _ hq
        _ = 2 ^ 32 := hsplit.symm
    · rw [Nat.add_comm, Nat.add_mul_div_right _ _ hpos, Nat.div_eq_of_lt hi, Nat.zero_add]
  · rintro ⟨_, hn⟩
    refine ⟨n % 2 ^ (32 - p), Nat.mod_lt _ hpos, ?_⟩
    rw [← hn, Nat.mul_comm]
    exact Nat.div_add_mod n _

theorem cidrAddresses_head (a p : Nat) :
    (cidrAddresses a p).head? = some (a / 2 ^ (32 - p) * 2 ^ (32 - p)) := by
  have hpos : 0 < 2 ^ (32 - p) := Nat.pow_pos (by norm_num)
  unfold cidrAddresses
  obtain ⟨k, hk⟩ := Nat.exists_eq_succ_of_ne_zero (Nat.pos_iff_ne_zero.mp hpos)
  rw [hk, List.range_succ_eq_map]
  simp

theorem cidrAddresses_getLast (a p : Nat) :
    (cidrAddresses a p).getLast?
      = some (a / 2 ^ (32 - p) * 2 ^ (32 - p) + (2 ^ (32 - p) - 1)) := by
  have hpos : 0 < 2 ^ (32 - p) := Nat.pow_pos (by norm_num)
  unfold cidrAddresses
  obtain ⟨k, hk⟩ := Nat.exists_eq_succ_of_ne_zero (Nat.pos_iff_ne_zero.mp hpos)
  rw [hk, List.range_succ]
  simp


/-- A text is cut at the first occurrence of a character in one way only. -/
theorem cut_unique (c : Char) (l₁ l₂ r₁ r₂ : List Char) (h₁ : c ∉ l₁) (h₂ : c ∉ l₂)
    (h : l₁ ++ c :: r₁ = l₂ ++ c :: r₂) : l₁ = l₂ ∧ r₁ = r₂ := by
  induction l₁ generalizing l₂ with
  | nil =>
    cases l₂ with
    | nil => exact ⟨rfl, List.tail_eq_of_cons_eq h⟩
    | cons x xs =>
      have hx : c = x := List.head_eq_of_cons_eq h
      exact absurd (hx ▸ List.mem_cons_self c xs) h₂
  | cons y ys ih =>
    cases l₂ with
    | nil =>
      have hy : y = c := List.head_eq_of_cons_eq h
      exact absurd (hy ▸ List.mem_cons_self y ys) h₁
    | cons x xs =>
      have hxy : y = x := List.head_eq_of_cons_eq h
      have ht : ys ++ c :: r₁ = xs ++ c :: r₂ := List.tail_eq_of_cons_eq h
      have := ih xs (fun hc => h₁ (List.mem_cons_of_mem _ hc))
        (fun hc => h₂ (List.mem_cons_of_mem _ hc)) ht
      exact ⟨by rw [hxy, this.1], this.2⟩

set_option maxRecDepth 100000 in
/-- The decimal text of a number below 256 reads back as that number and has no dot. -/
theorem octet_text (o : Nat) (h : o < 256) :
    parseDec (toString o).toList = some o ∧ '.' ∉ (toString o).toList := by
  revert o
  decide

theorem ipString_toList (n : Nat) :
    (ipString n).toList = (toString (n / 2 ^ 24 % 256)).toList ++ '.' ::
      ((toString (n / 2 ^ 16 % 256)).toList ++ '.' ::
        ((toString (n / 2 ^ 8 % 256)).toList ++ '.' :: (toString (n % 256)).toList)) := by
  unfold ipString
  simp [String.toList, String.data_append]

/-- Two address values below `2 ^ 32` with the same dotted quad are equal. -/
theorem ipString_injOn (n m : Nat) (hn : n < 2 ^ 32) (hm : m < 2 ^ 32)
    (h : ipString n = ipString m) : n = m := by
  have hl : (ipString n).toList = (ipString m).toList := by rw [h]
  rw [ipString_toList, ipString_toList] at hl
  have lt256 : ∀ k : Nat, k % 256 < 256 := fun k => Nat.mod_lt k (by norm_num)
  have oct : ∀ a b : Nat, a < 256 → b < 256 →
      (toString a).toList = (toString b).toList → a = b := by
    intro a b ha hb hab
    have h1 := (octet_text a ha).1
    rw [hab, (octet_text b hb).1] at h1
    exact (Option.some.inj h1).symm
  obtain ⟨e₁, hl⟩ := cut_unique '.' _ _ _ _ (octet_text _ (lt256 _)).2
    (octet_text _ (lt256 _)).2 hl
  obtain ⟨e₂, hl⟩ := cut_unique '.' _ _ _ _ (octet_text _ (lt256 _)).2
    (octet_text _ (lt256 _)).2 hl
  obtain ⟨e₃, e₄⟩ := cut_unique '.' _ _ _ _ (octet_text _ (lt256 _)).2
    (octet_text _ (lt256 _)).2 hl
  have q₁ := oct _ _ (lt256 _) (lt256 _) e₁
  have q₂ := oct _ _ (lt256 _) (lt256 _) e₂
  have q₃ := oct _ _ (lt256 _) (lt256 _) e₃
  have q₄ := oct _ _ (lt256 _) (lt256 _) e₄
  norm_num at q₁ q₂ q₃ hn hm
  omega

/-- C4: on a valid IPv4 CIDR token, of address value `a` and prefix length `p`,
`StartJob` sends one request per address of the block and no other: `2 ^ (32 - p)`
requests, for the address values of `cidrAddresses a p` written as dotted quads. These
values are strictly ascending (so without repetition), they are exactly the values below
`2 ^ 32` that agree with `a` on the first `p` bits, the first is the network address, the
last the broadcast address, and no dotted quad is requested twice. -/
theorem cidr_expansion (fl : Flags) (lib : Lib) (raw : String) (a p : Nat)
    (hparse : lib.ParseCIDR raw = specParseCIDR raw)
    (hexp : lib.IPAddresses raw = specIPAddresses raw)
    (h : parseCIDR raw = some (a, p)) :
    p ≤ 32
      ∧ getURLs (StartJob fl lib raw) = (cidrAddresses a p).map (fun n => ipURL (ipString n))
      ∧ (getURLs (StartJob fl lib raw)).length = 2 ^ (32 - p)
      ∧ (cidrAddresses a p).Sorted (· < ·)
      ∧ (∀ n, n ∈ cidrAddresses a p ↔ n < 2 ^ 32 ∧ n / 2 ^ (32 - p) = a / 2 ^ (32 - p))
      ∧ (cidrAddresses a p).head? = some (a / 2 ^ (32 - p) * 2 ^ (32 - p))
      ∧ (cidrAddresses a p).getLast?
          = some (a / 2 ^ (32 - p) * 2 ^ (32 - p) + (2 ^ (32 - p) - 1))
      ∧ ((cidrAddresses a p).map ipString).Nodup := by
  obtain ⟨ha, hp⟩ := parseCIDR_bounds raw a p h
  have hP : lib.ParseCIDR raw = true := by
    rw [hparse]; unfold specParseCIDR; rw [h]; rfl
  have hA : lib.IPAddresses raw = Except.ok ((cidrAddresses a p).map ipString) := by
    rw [hexp]; unfold specIPAddresses; rw [h]
  have hurls : getURLs (StartJob fl lib raw)
      = (cidrAddresses a p).map (fun n => ipURL (ipString n)) := by
    rw [StartJob_cidr_urls fl lib raw _ hP hA, List.map_map]
    rfl
  refine ⟨hp, hurls, ?_, cidrAddresses_sorted a p, fun n => cidrAddresses_mem a p n ha hp,
    cidrAddresses_head a p, cidrAddresses_getLast a p, ?_⟩
  · rw [hurls, List.length_map, cidrAddresses_length]
  · apply List.Nodup.map_on
    · intro x hx y hy hxy
      exact ipString_injOn x y ((cidrAddresses_mem a p x ha hp).mp hx).1
        ((cidrAddresses_mem a p y ha hp).mp hy).1 hxy
    · exact ((cidrAddresses_sorted a p).imp (fun hlt => Nat.ne_of_lt hlt))

/-- C4, at the sample world: the block `10.0.0.7/30` is the four addresses from
`10.0.0.4` to `10.0.0.7`. -/
theorem cidr_expansion_witness :
    getURLs (StartJob defaultFlags sampleLib "10.0.0.7/30")
      = [ipURL "10.0.0.4", ipURL "10.0.0.5", ipURL "10.0.0.6", ipURL "10.0.0.7"] :=
  (cidr_expansion defaultFlags sampleLib "10.0.0.7/30" 167772167 30 rfl rfl
    (by decide)).2.1.trans (by decide)

/-! ## The worker pool -/

/-- The events of `StartJob` are those of `GetIPInfo` on each of its targets, in order. -/
theorem StartJob_targets (fl : Flags) (lib : Lib) (raw : String) :
    StartJob fl lib raw = ((targets lib raw).map (GetIPInfo fl lib)).flatten := by
  unfold StartJob targets
  by_cases h : lib.ParseCIDR raw = false
  · simp [h]
  · rw [if_neg h, if_neg h]
    cases lib.IPAddresses raw with
    | error e => rfl
    | ok ips => simp only; rw [rangeIPs_eq, List.nil_append]

theorem fire_inv (lib : Lib) (N : Nat) (s s' : Pool) (a : Action) (hs : PoolInv N s)
    (h : fire lib N s a = some s') : PoolInv N s' := by
  obtain ⟨hw, hj⟩ := hs
  cases a with
  | send =>
    simp only [fire] at h
    split at h
    · split at h
      · rename_i hc
        cases h
        exact ⟨hw, by simp only [List.length_append, List.length_singleton]; omega⟩
      · exact absurd h (by simp)
    · exact absurd h (by simp)
  | close =>
    simp only [fire] at h
    split at h
    · split at h
      · cases h; exact ⟨hw, hj⟩
      · exact absurd h (by simp)
    · exact absurd h (by simp)
  | recv w =>
    simp only [fire] at h
    split at h
    · rename_i hjobs
      cases h
      refine ⟨by simp only [List.length_set]; exact hw, ?_⟩
      rw [hjobs] at hj
      simp only [List.length_cons] at hj
      simp only
      omega
    · exact absurd h (by simp)
  | call w =>
    simp only [fire] at h
    split at h
    · cases h; exact ⟨by simp only [List.length_set]; exact hw, hj⟩
    · exact absurd h (by simp)
  | answer w =>
    simp only [fire] at h
    split at h
    · cases h; exact ⟨by simp only [List.length_set]; exact hw, hj⟩
    · exact absurd h (by simp)
  | finish w =>
    simp only [fire] at h
    split at h
    · cases h; exact ⟨by simp only [List.length_set]; exact hw, hj⟩
    · exact absurd h (by simp)
  | leave w =>
    simp only [fire] at h
    split at h
    · split at h
      · cases h; exact ⟨by simp only [List.length_set]; exact hw, hj⟩
      · exact absurd h (by simp)
    · exact absurd h (by simp)

theorem run_inv (lib : Lib) (N : Nat) (sched : List Action) (s s' : Pool) (hs : PoolInv N s)
    (h : run lib N sched s = some s') : PoolInv N s' := by
  induction sched generalizing s with
  | nil =>
    simp only [run] at h
    cases h
    exact hs
  | cons a rest ih =>
    simp only [run] at h
    split at h
    · exact absurd h (by simp)
    · rename_i s₁ h₁
      exact ih s₁ (fire_inv lib N s s₁ a hs h₁) h

/-- C8: in streaming mode with concurrency `N`, in every state of every execution (every
schedule of the producer and the workers) the number of addresses undergoing a network
call is at most `N`: there are exactly `N` workers, each inside at most one call, and
the channel buffer never holds more than `N` targets. -/
theorem concurrency_bound (fl : Flags) (lib : Lib) (scans : List Scan) (N : Nat)
    (sched : List Action) (s₀ s : Pool) (hN : fl.concurrency = (N : Int))
    (hstart : startPool fl lib scans = some s₀) (hrun : run lib N sched s₀ = some s) :
    inFlight s ≤ N ∧ s.workers.length = N ∧ s.jobs.length ≤ N := by
  have h0 : PoolInv N s₀ := by
    unfold startPool at hstart
    rw [if_neg (by omega)] at hstart
    cases hstart
    refine ⟨?_, Nat.zero_le N⟩
    simp only [List.length_replicate, hN, Int.toNat_ofNat]
  obtain ⟨hw, hj⟩ := run_inv lib N sched s₀ s h0 hrun
  refine ⟨?_, hw, hj⟩
  unfold inFlight
  rw [← hw]
  exact List.countP_le_length _

/-- C8, at the sample world with concurrency 2: after the two input lines are sent and
received, both workers are inside a network call, and not more. -/
theorem concurrency_bound_witness :
    (∃ s, run sampleLib 2
        [Action.send, Action.send, Action.recv 0, Action.recv 1, Action.call 0, Action.call 1]
        { ops := producer sampleLib (scanLines ["10.0.0.1", "10.0.0.0/30"]), jobs := [],
          closed := false, workers := [Worker.receiving, Worker.receiving] } = some s
      ∧ inFlight s = 2 ∧ inFlight s ≤ 2) :=
  ⟨{ ops := [ChanOp.close], jobs := [], closed := false,
     workers := [Worker.calling "10.0.0.1" [],
       Worker.calling "10.0.0.0" ["10.0.0.1", "10.0.0.2", "10.0.0.3"]] },
   by decide, by decide,
   (concurrency_bound { defaultFlags with concurrency := 2 } sampleLib
      (scanLines ["10.0.0.1", "10.0.0.0/30"]) 2
      [Action.send, Action.send, Action.recv 0, Action.recv 1, Action.call 0, Action.call 1]
      _ _ rfl rfl (by decide)).1⟩

end Sdlookup
